import Mathlib

/-
Verification of the HomeKit adapter (WebThingsIO/homekit-adapter) against its
natural-language specification.

The JavaScript source is shallowly embedded: JS numbers are modelled as
rationals (ℚ), `Math.round` as the half-up rounding `jsRound`, promises and the
BLE operation queue as an explicit small-step machine whose steps are the
microtask turns of the event loop, and fallible operations as values of
explicit result types.
-/

namespace HomekitAdapter

/-! ### JavaScript numeric helpers -/

/-- JS `Math.round`: round half toward positive infinity, `⌊x + 1/2⌋`. -/
def jsRound (q : ℚ) : ℤ := ⌊q + 1/2⌋

/-- `Math.round(value / step) * step` — the step-rounding expression used by
`HomeKitProperty.setValue` (lib/homekit-property.js). -/
def roundToMultiple (step v : ℚ) : ℚ := (jsRound (v / step) : ℚ) * step

/-! ### `HomeKitProperty.setValue` (lib/homekit-property.js) -/

/-- The fields of a `HomeKitProperty` that `setValue` consults.  Optional
numeric fields model JS `hasOwnProperty` checks; `toHap`/`fromHap` are the
optional translation hooks installed for vendor-extension characteristics. -/
structure PropSt where
  readOnly : Bool
  minimum : Option ℚ
  maximum : Option ℚ
  multipleOf : Option ℚ
  type : String
  metaProperty : Bool
  toHap : Option (ℚ → ℚ)
  fromHap : Option (ℚ → ℚ)
  cachedValue : Option ℚ

/-- The value-adjustment pipeline of `setValue`, in source order:
`Math.max(minimum, v)`, then `Math.min(maximum, v)`, then
`Math.round(v / multipleOf) * multipleOf`, then `Math.round(v)` when the
property type is `'integer'`. -/
def adjustValue (p : PropSt) (v : ℚ) : ℚ :=
  let v1 := match p.minimum with
    | some mn => max mn v
    | none => v
  let v2 := match p.maximum with
    | some mx => min mx v1
    | none => v1
  let v3 := match p.multipleOf with
    | some s => roundToMultiple s v2
    | none => v2
  if p.type = "integer" then (jsRound v3 : ℚ) else v3

/-- The immediate outcome of a `setValue` call: rejection for a read-only
property, a transmitted write (`client.setCharacteristics`, over IP or via the
BLE queue), or a cache-only update for a meta-property. -/
inductive SetValueRes
  | rejectedReadOnly
  | transmit (v : ℚ)
  | cacheOnly (v : ℚ)
deriving DecidableEq

/-- `HomeKitProperty.setValue`: reject read-only properties before anything
else; otherwise adjust the value, apply `toHap` when installed, and either
transmit it (normal property) or only cache it (meta-property). -/
def setValueModel (p : PropSt) (v : ℚ) : SetValueRes :=
  if p.readOnly then .rejectedReadOnly
  else
    let w := adjustValue p v
    let w := match p.toHap with
      | some f => f w
      | none => w
    if p.metaProperty then .cacheOnly w else .transmit w

/-- `setCachedValue`: the stored value after a `setValue` call, given whether
the transmission (if any) succeeded.  `fromHap` is applied by
`setCachedValue` itself. -/
def cacheAfterSetValue (p : PropSt) (v : ℚ) (txOk : Bool) : Option ℚ :=
  let store (w : ℚ) : Option ℚ :=
    some (match p.fromHap with
      | some g => g w
      | none => w)
  match setValueModel p v with
  | .rejectedReadOnly => p.cachedValue
  | .cacheOnly w => store w
  | .transmit w => if txOk then store w else p.cachedValue

/-- Modelled from the claim's words, for comparison with `setValueModel`:
clamp into `[mn, mx]`, round to the nearest multiple of the step, then round
to the nearest integer when the property type is `'integer'`. -/
def claimTransmit (mn mx s : ℚ) (ty : String) (v : ℚ) : ℚ :=
  let c := max mn (min mx v)
  let r := roundToMultiple s c
  if ty = "integer" then (jsRound r : ℚ) else r

/-! ### Enum getters and setters (lib/property-utils.js) -/

/-- Result of a JS function that either returns normally or throws an
`Error` with a message. -/
inductive JsResult (α : Type)
  | ok (v : α)
  | thrown (msg : String)
deriving DecidableEq

/-- `buildEnumGetter(values)` — look the raw integer up among the object's
keys and return its label, else throw `'Invalid enum value'`.  The JS object
is modelled as an association list with (automatically) distinct keys. -/
def enumGetter (table : List (ℤ × String)) (v : ℤ) : JsResult String :=
  match table.find? (fun e => e.1 = v) with
  | some e => .ok e.2
  | none => .thrown "Invalid enum value"

/-- `buildEnumSetter(values)` — `Object.entries(values).find` the first entry
whose label matches, and return `parseInt` of its key, else throw
`'Invalid enum value'`. -/
def enumSetter (table : List (ℤ × String)) (s : String) : JsResult ℤ :=
  match table.find? (fun e => e.2 = s) with
  | some e => .ok e.1
  | none => .thrown "Invalid enum value"

/-- The Eve Motion sensitivity table from lib/vendor-extensions.js. -/
def eveMotionSensitivityTable : List (ℤ × String) :=
  [(0, "High"), (4, "Medium"), (7, "Low")]

/-! ### The BLE operation queue (`HomeKitAdapter.queueBLEOperation`)

`queueBLEOperation(op)` increments `this.queuedOperations`, chains a runner
onto `this.currentBLEOperation` (the previous returned promise with a
rejection absorbed by `.catch`), and returns a new promise `ret`.  When the
chain reaches the runner it stops BLE discovery and calls `op()`; when `op`'s
promise settles the runner decrements the counter, restarts discovery if the
counter reached zero, and settles `ret` via `resolve.call(arguments)` /
`reject.call(arguments)` — which invoke the settle functions with *no*
argument, so `ret` settles with `undefined`.

The machine below models one microtask turn of the event loop as one atomic
step.  Environment events are: an `enq` (a caller submits an operation) and a
`settleOp o` (the promise of the currently executing operation settles with
outcome `o`).  Runner callbacks enabled by an event fire within the same
step (`maybeRun`), matching the fact that pending microtasks run before any
other macrotask can observe the adapter's state. -/

/-- A JavaScript value, as far as the queue claims need one. -/
inductive JsVal
  | undefinedVal
  | num (n : ℤ)
  | str (s : String)
deriving DecidableEq

/-- Settlement of a promise: fulfilled or rejected, with a value. -/
inductive Outcome
  | fulfilled (v : JsVal)
  | rejected (v : JsVal)
deriving DecidableEq

/-- What `resolve.call(arguments)` / `reject.call(arguments)` settle the
returned promise with: the same disposition, value `undefined`. -/
def stripOutcome : Outcome → Outcome
  | .fulfilled _ => .fulfilled .undefinedVal
  | .rejected _ => .rejected .undefinedVal

/-- Environment events driving the queue. -/
inductive QEvent
  | enq
  | settleOp (o : Outcome)
deriving DecidableEq

/-- Adapter state touched by `queueBLEOperation`.  Operations are numbered in
submission order; `runLog` records `(i, none)` when `op()` of operation `i`
is called and `(i, some o)` when operation `i`'s promise settles with `o`;
`retResults` records the settlement of each returned promise. -/
structure QueueState where
  enqueuedCount : ℕ
  startedCount : ℕ
  settledCount : ℕ
  queuedOperations : ℕ
  scanning : Bool
  retResults : List (ℕ × Outcome)
  runLog : List (ℕ × Option Outcome)
deriving DecidableEq

/-- Initial adapter state: `currentBLEOperation = Promise.resolve()`,
`queuedOperations = 0`, BLE discovery scanning. -/
def initQueue : QueueState :=
  { enqueuedCount := 0, startedCount := 0, settledCount := 0,
    queuedOperations := 0, scanning := true, retResults := [], runLog := [] }

/-- Fire the chained runner if it is enabled: the next submitted operation
runs as soon as the previous returned promise has settled (`startedCount =
settledCount`).  The runner stops BLE discovery and calls `op()`. -/
def maybeRun (s : QueueState) : QueueState :=
  if s.startedCount < s.enqueuedCount ∧ s.startedCount = s.settledCount then
    { s with scanning := false,
             startedCount := s.startedCount + 1,
             runLog := s.runLog ++ [(s.startedCount, none)] }
  else s

/-- One environment event plus the microtasks it enables.
`enq`: `this.queuedOperations++`, chain the runner, run it if the chain is
already settled.  `settleOp o`: the running operation's promise settles; its
handler does `--this.queuedOperations`, restarts discovery on zero, settles
`ret` with `undefined`, and the settlement of `ret.catch` lets the next
runner fire. -/
def stepQueue (s : QueueState) : QEvent → QueueState
  | .enq =>
      maybeRun { s with enqueuedCount := s.enqueuedCount + 1,
                        queuedOperations := s.queuedOperations + 1 }
  | .settleOp o =>
      if s.settledCount < s.startedCount then
        let i := s.settledCount
        let q := s.queuedOperations - 1
        maybeRun { s with
          settledCount := i + 1,
          queuedOperations := q,
          scanning := if q = 0 then true else s.scanning,
          retResults := s.retResults ++ [(i, stripOutcome o)],
          runLog := s.runLog ++ [(i, some o)] }
      else s

/-- Run the queue machine over a list of environment events. -/
def execQueue (evs : List QEvent) : QueueState := evs.foldl stepQueue initQueue

/-- An event is physically possible in a state: an operation's promise can
only settle while that operation is executing. -/
def enabledQ (s : QueueState) : QEvent → Bool
  | .enq => true
  | .settleOp _ => s.settledCount < s.startedCount

/-- Every event of the list is possible when its turn comes. -/
def wfFrom (s : QueueState) : List QEvent → Bool
  | [] => true
  | e :: es => enabledQ s e && wfFrom (stepQueue s e) es

/-- A well-formed schedule from the initial state. -/
def wfQ (evs : List QEvent) : Bool := wfFrom initQueue evs

/-- The outcomes carried by the settle events of a schedule, in order. -/
def outcomesOf (evs : List QEvent) : List Outcome :=
  evs.filterMap fun e => match e with
    | .settleOp o => some o
    | .enq => none

/-- Number of submissions in a schedule. -/
def countEnq (evs : List QEvent) : ℕ :=
  (evs.filter fun e => match e with
    | .enq => true
    | .settleOp _ => false).length

/-- The strictly FIFO run log: operation `i` starts, then settles, then
operation `i+1` starts … -/
def canonicalRunAux : ℕ → List Outcome → List (ℕ × Option Outcome)
  | _, [] => []
  | i, o :: rest => (i, none) :: (i, some o) :: canonicalRunAux (i + 1) rest

/-- The run log a FIFO queue must produce from `outs` settlements and `e`
submissions: alternating start/settle pairs in submission order, plus the
start of the next operation when one is still pending. -/
def canonicalRun (outs : List Outcome) (e : ℕ) : List (ℕ × Option Outcome) :=
  canonicalRunAux 0 outs ++ (if outs.length < e then [(outs.length, none)] else [])

/-- The settlements of the promises returned by `queueBLEOperation`, given
the operations' own outcomes starting at index `i`: same disposition, value
`undefined`. -/
def retsOf : ℕ → List Outcome → List (ℕ × Outcome)
  | _, [] => []
  | i, o :: rest => (i, stripOutcome o) :: retsOf (i + 1) rest

/-- The queue machine's state invariant, preserved by every event: counters
are consistent and discovery scanning is on exactly while the queue is
empty. -/
def QInv (s : QueueState) : Prop :=
  s.settledCount ≤ s.startedCount ∧
  s.startedCount ≤ s.enqueuedCount ∧
  s.startedCount ≤ s.settledCount + 1 ∧
  s.queuedOperations = s.enqueuedCount - s.settledCount ∧
  (s.scanning = true ↔ s.queuedOperations = 0)

/-! ### Pairing (`HomeKitDevice.pair`, lib/homekit-device.js) -/

/-- The sentinel PIN that means "the accessory will display a PIN". -/
def sentinelPin : String := "000-00-000"

/-- Device state relevant to `pair`: the pending pairing data saved by a
`startPairing` round and the client it was obtained with.  Pairing blobs and
clients are modelled by tokens (ℕ). -/
structure PairSt where
  pendingPairingData : Option ℕ
  pendingPairingClient : Option ℕ
deriving DecidableEq

/-- The request `pair` issues to the accessory. -/
inductive PairAct
  | startPairingReq (client : ℕ)
  | finishPairingReq (client : ℕ) (data : ℕ) (pin : String)
  | pairSetupReq (client : ℕ) (pin : String)
deriving DecidableEq

/-- How the `pair` promise is disposed before the exchange continues. -/
inductive PairRes
  | rejectedEnterPinFromDisplay
  | proceeding
deriving DecidableEq

/-- `HomeKitDevice.pair(pin)` up to the point where a pairing request is on
the wire: which client is used (the retained `pendingPairingClient` only when
pending state exists and the PIN is not the sentinel, else a fresh client),
which request is issued, and the updated pending state.  For the sentinel
PIN, `startPairing`'s returned state `startData` is saved with the client and
the promise rejects asking for the PIN on the device's display. -/
def pairModel (st : PairSt) (freshClient : ℕ) (startData : ℕ) (pin : String) :
    PairAct × PairSt × PairRes :=
  let client :=
    match st.pendingPairingData, st.pendingPairingClient with
    | some _, some c => if pin ≠ sentinelPin then c else freshClient
    | _, _ => freshClient
  if pin = sentinelPin then
    (.startPairingReq client,
     { pendingPairingData := some startData, pendingPairingClient := some client },
     .rejectedEnterPinFromDisplay)
  else
    match st.pendingPairingData with
    | some d => (.finishPairingReq client d pin, st, .proceeding)
    | none => (.pairSetupReq client pin, st, .proceeding)

/-! ### Retry behavior (`addDevicesAndProperties` and the IP disconnect
handler, lib/homekit-device.js) -/

/-- An error thrown by an enumeration attempt: a string error (BLE errors
are plain strings) or any non-string error object. -/
inductive AttemptErr
  | strErr (s : String)
  | objErr
deriving DecidableEq

/-- Result of one `client.getAccessories()` attempt. -/
inductive AttemptRes
  | ok
  | fail (e : AttemptErr)
deriving DecidableEq

/-- The retry predicate of `addDevicesAndProperties`:
`connectionType === 'ble' && typeof e === 'string' && (e === 'Disconnected' || e === 'Timeout')`. -/
def retriesEnumeration (conn : String) : AttemptErr → Bool
  | .strErr s => conn = "ble" && (s = "Disconnected" || s = "Timeout")
  | .objErr => false

/-- What the enumeration loop has produced after consuming a prefix of
attempt results. -/
inductive EnumOutcome
  | done
  | surfaced (e : AttemptErr)
  | stillRetrying
deriving DecidableEq

/-- `addDevicesAndProperties`'s `fn`: attempt, and on a retryable error call
`fn()` again immediately — against a trace of per-attempt results.  An
exhausted trace means the loop is once more attempting, with no error
surfaced so far. -/
def enumerationRun (conn : String) : List AttemptRes → EnumOutcome
  | [] => .stillRetrying
  | .ok :: _ => .done
  | .fail e :: rest =>
      if retriesEnumeration conn e then enumerationRun conn rest
      else .surfaced e

/-- What the IP `disconnect` handler does with its `startWatching` retries. -/
structure IpRetryPlan where
  attempts : ℕ
  delayBeforeSecondMs : Option ℕ
  surfacedToCaller : Bool
deriving DecidableEq

/-- The `disconnect` handler installed on IP clients:
`startWatching().catch(() => setTimeout(() => startWatching(), 5000))`.
One immediate attempt; on failure one more after 5000 ms whose own result is
discarded.  No failure is ever surfaced to a caller. -/
def ipDisconnectHandler (firstAttemptOk : Bool) : IpRetryPlan :=
  if firstAttemptOk then
    { attempts := 1, delayBeforeSecondMs := none, surfacedToCaller := false }
  else
    { attempts := 2, delayBeforeSecondMs := some 5000, surfacedToCaller := false }

/-! ### BLE polling (`startWatching`, `readBLECharacteristics`,
`triggerBLEUpdate`, lib/homekit-device.js) -/

/-- `const BLE_POLL_INTERVAL = 5 * 60 * 1000` (milliseconds). -/
def BLE_POLL_INTERVAL : ℕ := 5 * 60 * 1000

/-- Device state touched by the BLE polling logic.  `readInProgress` models
`this.readPromise !== null`; `pollTimeoutMs` the armed `setTimeout` delay, if
any; `lastReadAt` the completion time of the last read (`this.lastRead`). -/
structure WatchSt where
  gsn : ℕ
  readInProgress : Bool
  pollTimeoutMs : Option ℕ
  lastReadAt : Option ℕ
deriving DecidableEq

/-- `readBLECharacteristics`: reuse the in-flight read if one exists;
otherwise clear the poll timer and queue a read of every mapped
characteristic. -/
def readBLECharacteristicsModel (st : WatchSt) : WatchSt :=
  if st.readInProgress then st
  else { st with pollTimeoutMs := none, readInProgress := true }

/-- The final `.then` of a completed read: drop `readPromise`, stamp
`lastRead`, re-arm the poll timer with `BLE_POLL_INTERVAL`. -/
def readCompleteModel (st : WatchSt) (now : ℕ) : WatchSt :=
  { st with readInProgress := false, lastReadAt := some now,
            pollTimeoutMs := some BLE_POLL_INTERVAL }

/-- `triggerBLEUpdate(gsn)`: store the new GSN; skip entirely when the last
read completed 500 ms ago or less; otherwise read now. -/
def triggerBLEUpdateModel (st : WatchSt) (newGsn now : ℕ) : WatchSt :=
  let st1 := { st with gsn := newGsn }
  match st.lastReadAt with
  | some t => if now - t ≤ 500 then st1 else readBLECharacteristicsModel st1
  | none => readBLECharacteristicsModel st1

/-- `startWatching` for a BLE device: arm the poll timer. -/
def startWatchingBLEModel (st : WatchSt) : WatchSt :=
  { st with pollTimeoutMs := some BLE_POLL_INTERVAL }

/-! ### Accessory parsing (`addDevicesAndProperties` / `parseAccessories`,
lib/homekit-device.js) -/

/-- An accessory from `getAccessories`, as far as accessory selection and
sub-device creation are concerned. -/
structure Accessory where
  aid : ℕ
deriving DecidableEq

/-- The accessory filter of `addDevicesAndProperties`: a bridge parses every
accessory except `aid === 1`; a non-bridge parses only the first accessory
with `aid === 1`. -/
def accessoriesToParse (isBridge : Bool) (accs : List Accessory) : List Accessory :=
  if isBridge then accs.filter (fun a => a.aid ≠ 1)
  else
    match accs.find? (fun a => a.aid = 1) with
    | some a => [a]
    | none => []

/-- Where a parsed accessory's properties land. -/
inductive ParseTarget
  | selfDevice
  | subDevice (id : String)
deriving DecidableEq

/-- The sub-device id built in `parseAccessories`:
`` `${device.id}-${acc.aid}` `` where the fresh sub-device's initial id equals
the bridge's own id (both are derived from the same service record). -/
def subDeviceId (bridgeId : String) (acc : Accessory) : String :=
  bridgeId ++ "-" ++ toString acc.aid

/-- `parseAccessories(accessories, isBridge)`: on a bridge, each accessory is
parsed into a fresh sub-device registered in `subDevices` under its id;
otherwise every accessory is parsed into the device itself and no sub-device
is created.  Returns the parse targets and the registered sub-device ids. -/
def parseAccessoriesModel (bridgeId : String) (isBridge : Bool)
    (accs : List Accessory) : List (ParseTarget × Accessory) × List String :=
  if isBridge then
    (accs.map fun a => (.subDevice (subDeviceId bridgeId a), a),
     accs.map fun a => subDeviceId bridgeId a)
  else
    (accs.map fun a => (.selfDevice, a), [])

/-- `addDevicesAndProperties` after a successful `getAccessories`: select the
accessories to parse and parse them. -/
def addDevicesModel (bridgeId : String) (isBridge : Bool)
    (accs : List Accessory) : List (ParseTarget × Accessory) × List String :=
  parseAccessoriesModel bridgeId isBridge (accessoriesToParse isBridge accs)

end HomekitAdapter

namespace HomekitAdapter

/-! ### Helper lemmas -/

/-- `jsRound` is a nearest integer: no integer is strictly closer. -/
theorem jsRound_nearest (u : ℚ) (k : ℤ) :
    |(jsRound u : ℚ) - u| ≤ |(k : ℚ) - u| := by
  simp only [jsRound]
  have h1 : ((⌊u + 1/2⌋ : ℤ) : ℚ) ≤ u + 1/2 := Int.floor_le _
  have h2 : u + 1/2 < ((⌊u + 1/2⌋ : ℤ) : ℚ) + 1 := Int.lt_floor_add_one _
  have hb : |((⌊u + 1/2⌋ : ℤ) : ℚ) - u| ≤ 1/2 := by
    rw [abs_le]
    constructor <;> linarith
  rcases lt_trichotomy k ⌊u + 1/2⌋ with hk | hk | hk
  · have hk2 : ((k : ℤ) : ℚ) + 1 ≤ ((⌊u + 1/2⌋ : ℤ) : ℚ) := by
      exact_mod_cast Int.add_one_le_of_lt hk
    calc |((⌊u + 1/2⌋ : ℤ) : ℚ) - u| ≤ 1/2 := hb
      _ ≤ u - (k : ℚ) := by linarith
      _ ≤ |u - (k : ℚ)| := le_abs_self _
      _ = |(k : ℚ) - u| := abs_sub_comm _ _
  · rw [hk]
  · have hk2 : ((⌊u + 1/2⌋ : ℤ) : ℚ) + 1 ≤ ((k : ℤ) : ℚ) := by
      exact_mod_cast Int.add_one_le_of_lt hk
    calc |((⌊u + 1/2⌋ : ℤ) : ℚ) - u| ≤ 1/2 := hb
      _ ≤ (k : ℚ) - u := by linarith
      _ ≤ |(k : ℚ) - u| := le_abs_self _

/-- `Math.round(v / s) * s` is a nearest multiple of a positive step `s`. -/
theorem roundToMultiple_nearest (s v : ℚ) (hs : 0 < s) (k : ℤ) :
    |roundToMultiple s v - v| ≤ |(k : ℚ) * s - v| := by
  have hne : s ≠ 0 := ne_of_gt hs
  have h1 : roundToMultiple s v - v = ((jsRound (v/s) : ℚ) - v/s) * s := by
    rw [roundToMultiple]
    field_simp
  have h2 : (k : ℚ) * s - v = ((k : ℚ) - v/s) * s := by
    field_simp
  rw [h1, h2, abs_mul, abs_mul]
  exact mul_le_mul_of_nonneg_right (jsRound_nearest (v/s) k) (abs_nonneg s)

/-- Clamping low-then-high (the code's order) equals the usual clamp when the
bounds are ordered. -/
theorem clamp_orders_agree (mn mx v : ℚ) (h : mn ≤ mx) :
    min mx (max mn v) = max mn (min mx v) := by
  rw [max_min_distrib_left, max_eq_right h]

/-- `find?` by key returns the table entry itself when keys are distinct. -/
theorem find?_key_of_mem {table : List (ℤ × String)} {p : ℤ × String}
    (hnd : (table.map Prod.fst).Nodup) (hp : p ∈ table) :
    table.find? (fun e => e.1 = p.1) = some p := by
  induction table with
  | nil => cases hp
  | cons q rest ih =>
    rw [List.map_cons, List.nodup_cons] at hnd
    rcases List.mem_cons.mp hp with rfl | hmem
    · exact List.find?_cons_of_pos _ (by simp)
    · have hne : ¬(q.1 = p.1) := fun hh =>
        hnd.1 (hh ▸ List.mem_map_of_mem Prod.fst hmem)
      rw [List.find?_cons_of_neg _ (by simpa using hne)]
      exact ih hnd.2 hmem

/-- `find?` by label returns the table entry itself when labels are
distinct. -/
theorem find?_label_of_mem {table : List (ℤ × String)} {p : ℤ × String}
    (hnd : (table.map Prod.snd).Nodup) (hp : p ∈ table) :
    table.find? (fun e => e.2 = p.2) = some p := by
  induction table with
  | nil => cases hp
  | cons q rest ih =>
    rw [List.map_cons, List.nodup_cons] at hnd
    rcases List.mem_cons.mp hp with rfl | hmem
    · exact List.find?_cons_of_pos _ (by simp)
    · have hne : ¬(q.2 = p.2) := fun hh =>
        hnd.1 (hh ▸ List.mem_map_of_mem Prod.snd hmem)
      rw [List.find?_cons_of_neg _ (by simpa using hne)]
      exact ih hnd.2 hmem

/-! ### Claim theorems -/

/-- C1: for a writable property with declared minimum, maximum and step,
`setValue(v)` transmits the value obtained by clamping `v` into
`[minimum, maximum]`, then rounding to the nearest multiple of the step
(`roundToMultiple` is a nearest multiple, second conjunct), then rounding to
the nearest integer when the property type is `'integer'`
(`claimTransmit` is stated in exactly those terms). -/
theorem C1_setValue_validates (p : PropSt) (v mn mx s : ℚ)
    (hro : p.readOnly = false) (hmn : p.minimum = some mn)
    (hmx : p.maximum = some mx) (hs : p.multipleOf = some s)
    (hmm : mn ≤ mx) (hspos : 0 < s)
    (hth : p.toHap = none) (hmp : p.metaProperty = false) :
    setValueModel p v = .transmit (claimTransmit mn mx s p.type v) ∧
    (∀ k : ℤ, |roundToMultiple s (max mn (min mx v)) - max mn (min mx v)| ≤
      |(k : ℚ) * s - max mn (min mx v)|) := by
  constructor
  · have hclamp : min mx (max mn v) = max mn (min mx v) := clamp_orders_agree mn mx v hmm
    simp only [setValueModel, adjustValue, claimTransmit, hro, hmn, hmx, hs, hth, hmp,
      Bool.false_eq_true, if_false]
    rw [hclamp]
  · intro k
    exact roundToMultiple_nearest s _ hspos k

/-- C1 witness: writing 150 to a `[0,100]`-bounded integer property with
step 1 transmits 100; writing 2.3 to a step-0.5 number property transmits
2.5. -/
theorem C1_witness :
    setValueModel ⟨false, some 0, some 100, some 1, "integer", false, none, none, none⟩ 150
      = .transmit 100 ∧
    setValueModel ⟨false, some 0, some 100, some (1/2), "number", false, none, none, none⟩ (23/10)
      = .transmit (5/2) := by
  have h1 := (C1_setValue_validates
    ⟨false, some 0, some 100, some 1, "integer", false, none, none, none⟩
    150 0 100 1 rfl rfl rfl rfl (by norm_num) (by norm_num) rfl rfl).1
  have h2 := (C1_setValue_validates
    ⟨false, some 0, some 100, some (1/2), "number", false, none, none, none⟩
    (23/10) 0 100 (1/2) rfl rfl rfl rfl (by norm_num) (by norm_num) rfl rfl).1
  refine ⟨h1.trans ?_, h2.trans ?_⟩
  · simp only [claimTransmit, roundToMultiple, jsRound, String.reduceEq]
    norm_num
  · simp only [claimTransmit, roundToMultiple, jsRound, String.reduceEq]
    norm_num

/-- C4: pairing with the sentinel PIN `'000-00-000'` does not run pair-setup:
it issues `startPairing`, saves the returned pending state together with the
client, and rejects asking for the PIN on the device's display; a later
`pair` call with a real PIN while pending state exists resumes via
`finishPairing` with the retained state and the same client, instead of
`pairSetup`. -/
theorem C4_pair_sentinel_flow :
    (∀ (st : PairSt) (fresh startData : ℕ),
      pairModel st fresh startData sentinelPin =
        (.startPairingReq fresh,
         { pendingPairingData := some startData, pendingPairingClient := some fresh },
         .rejectedEnterPinFromDisplay)) ∧
    (∀ (st : PairSt) (fresh startData : ℕ) (pin : String) (d c : ℕ),
      pin ≠ sentinelPin →
      st.pendingPairingData = some d → st.pendingPairingClient = some c →
      pairModel st fresh startData pin = (.finishPairingReq c d pin, st, .proceeding)) := by
  constructor
  · intro st fresh startData
    rcases st with ⟨pd, pc⟩
    cases pd <;> cases pc <;> simp [pairModel]
  · intro st fresh startData pin d c hne hd hc
    simp [pairModel, hd, hc, hne]

/-- C4 witness: after the sentinel round saved state 7 with client 3, pairing
with the real PIN `123-45-678` issues `finishPairing` with that state and
client. -/
theorem C4_witness :
    pairModel ⟨some 7, some 3⟩ 9 11 "123-45-678" =
      (.finishPairingReq 3 7 "123-45-678", ⟨some 7, some 3⟩, .proceeding) :=
  C4_pair_sentinel_flow.2 ⟨some 7, some 3⟩ 9 11 "123-45-678" 7 3 (by decide) rfl rfl

/-- C5 counterexample: fifty consecutive BLE `'Disconnected'` failures during
accessory enumeration have not surfaced any error — the loop is still
retrying (`stillRetrying`, which is neither `done` nor `surfaced e`),
contradicting the claim's bounded retry count before surfacing. -/
theorem C5_counterexample :
    enumerationRun "ble"
        (List.replicate 50 (.fail (.strErr "Disconnected"))) = .stillRetrying := by
  decide

/-- C5 amended: BLE `'Disconnected'`/`'Timeout'` errors during enumeration
are retried immediately and without bound (never surfaced, no backoff);
any other enumeration error surfaces at once without retry; an IP disconnect
triggers one immediate `startWatching` attempt and, on failure, one more
after 5000 ms, and neither failure is surfaced to any caller. -/
theorem C5_amended_retry_behavior :
    (∀ n, enumerationRun "ble"
        (List.replicate n (.fail (.strErr "Disconnected"))) = .stillRetrying) ∧
    (∀ n, enumerationRun "ble"
        (List.replicate n (.fail (.strErr "Timeout"))) = .stillRetrying) ∧
    (∀ e rest, retriesEnumeration "ble" e = false →
      enumerationRun "ble" (AttemptRes.fail e :: rest) = .surfaced e) ∧
    (∀ rest, enumerationRun "ble" (AttemptRes.ok :: rest) = .done) ∧
    (∀ b, (ipDisconnectHandler b).surfacedToCaller = false ∧
      (ipDisconnectHandler b).attempts ≤ 2) ∧
    ipDisconnectHandler false = ⟨2, some 5000, false⟩ := by
  refine ⟨?_, ?_, ?_, ?_, ?_, rfl⟩
  · intro n
    induction n with
    | zero => rfl
    | succ m ih => simpa [List.replicate_succ, enumerationRun, retriesEnumeration] using ih
  · intro n
    induction n with
    | zero => rfl
    | succ m ih => simpa [List.replicate_succ, enumerationRun, retriesEnumeration] using ih
  · intro e rest h
    simp [enumerationRun, h]
  · intro rest
    rfl
  · intro b
    cases b <;> simp [ipDisconnectHandler]

/-- C5 amended witness: three disconnects still retrying; an object error
surfaces immediately; a failed IP restart retries once after 5000 ms without
surfacing. -/
theorem C5_amended_witness :
    enumerationRun "ble"
        (List.replicate 3 (.fail (.strErr "Disconnected"))) = .stillRetrying ∧
    enumerationRun "ble" [AttemptRes.fail .objErr] = .surfaced .objErr ∧
    ipDisconnectHandler false = ⟨2, some 5000, false⟩ := by
  refine ⟨C5_amended_retry_behavior.1 3, ?_, C5_amended_retry_behavior.2.2.2.2.2⟩
  exact C5_amended_retry_behavior.2.2.1 .objErr [] (by decide)

/-- C6 counterexample: a GSN-change signal arriving 300 ms after the last
completed read does not trigger a read — only the stored GSN changes,
contradicting the claim that a GSN change always triggers an immediate
read. -/
theorem C6_counterexample :
    triggerBLEUpdateModel ⟨1, false, some BLE_POLL_INTERVAL, some 1000⟩ 2 1300 =
      ⟨2, false, some BLE_POLL_INTERVAL, some 1000⟩ ∧
    (triggerBLEUpdateModel ⟨1, false, some BLE_POLL_INTERVAL, some 1000⟩ 2 1300).readInProgress
      = false := by
  constructor <;> decide

/-- C6 amended: BLE values are re-read on a fixed 5-minute timer
(`BLE_POLL_INTERVAL = 300000` ms, armed by `startWatching` and re-armed by
each completed read), and a GSN-change signal triggers an immediate read
unless the previous read completed 500 ms ago or less (then only the stored
GSN is updated) or a read is already in flight (then that read is reused). -/
theorem C6_amended_polling (st : WatchSt) (newGsn now t : ℕ) :
    BLE_POLL_INTERVAL = 5 * 60 * 1000 ∧
    (startWatchingBLEModel st).pollTimeoutMs = some BLE_POLL_INTERVAL ∧
    readCompleteModel st now =
      { st with readInProgress := false, lastReadAt := some now,
                pollTimeoutMs := some BLE_POLL_INTERVAL } ∧
    (st.lastReadAt = some t → now - t ≤ 500 →
      triggerBLEUpdateModel st newGsn now = { st with gsn := newGsn }) ∧
    (st.readInProgress = false → st.lastReadAt = some t → 500 < now - t →
      triggerBLEUpdateModel st newGsn now =
        { st with gsn := newGsn, readInProgress := true, pollTimeoutMs := none }) ∧
    (st.readInProgress = false → st.lastReadAt = none →
      triggerBLEUpdateModel st newGsn now =
        { st with gsn := newGsn, readInProgress := true, pollTimeoutMs := none }) ∧
    (st.readInProgress = true →
      (triggerBLEUpdateModel st newGsn now).readInProgress = true) := by
  refine ⟨rfl, rfl, rfl, ?_, ?_, ?_, ?_⟩
  · intro hlr hle
    simp [triggerBLEUpdateModel, hlr, hle]
  · intro hip hlr hgt
    simp [triggerBLEUpdateModel, hlr, Nat.not_le.mpr hgt, readBLECharacteristicsModel, hip]
  · intro hip hlr
    simp [triggerBLEUpdateModel, hlr, readBLECharacteristicsModel, hip]
  · intro hip
    simp only [triggerBLEUpdateModel, readBLECharacteristicsModel]
    rcases st.lastReadAt with _ | t2
    · simp [hip]
    · by_cases hle : now - t2 ≤ 500 <;> simp [hle, hip]

/-- C6 amended witness: a signal 600 ms after the last read starts a read and
clears the timer; a completed read at time 2000 re-arms the 5-minute
timer. -/
theorem C6_amended_witness :
    triggerBLEUpdateModel ⟨1, false, some BLE_POLL_INTERVAL, some 1000⟩ 2 1601 =
      ⟨2, true, none, some 1000⟩ ∧
    readCompleteModel ⟨1, false, none, some 1000⟩ 2000 =
      ⟨1, false, some BLE_POLL_INTERVAL, some 2000⟩ := by
  have h := C6_amended_polling ⟨1, false, some BLE_POLL_INTERVAL, some 1000⟩ 2 1601 1000
  refine ⟨(h.2.2.2.2.1 rfl rfl (by norm_num)).trans (by decide), ?_⟩
  exact (C6_amended_polling ⟨1, false, none, some 1000⟩ 1 2000 0).2.2.1.trans (by decide)

/-- C8: `setValue` on a read-only property rejects with
`'Read-only property'` immediately — nothing is transmitted and the cached
value is untouched whatever happens afterwards. -/
theorem C8_readonly_rejected (p : PropSt) (v : ℚ) (txOk : Bool)
    (h : p.readOnly = true) :
    setValueModel p v = .rejectedReadOnly ∧
    (∀ w, setValueModel p v ≠ .transmit w) ∧
    cacheAfterSetValue p v txOk = p.cachedValue := by
  have h1 : setValueModel p v = .rejectedReadOnly := by simp [setValueModel, h]
  refine ⟨h1, ?_, ?_⟩
  · intro w hw
    rw [h1] at hw
    cases hw
  · simp [cacheAfterSetValue, h1]

/-- C8 witness: an Eve-Energy-style read-only voltage property rejects the
write and keeps its cached value. -/
theorem C8_witness :
    setValueModel ⟨true, none, none, some (1/10), "number", false, none, none, some 5⟩ 9
      = .rejectedReadOnly ∧
    cacheAfterSetValue ⟨true, none, none, some (1/10), "number", false, none, none, some 5⟩ 9 true
      = some 5 := by
  have h := C8_readonly_rejected
    ⟨true, none, none, some (1/10), "number", false, none, none, some 5⟩ 9 true rfl
  exact ⟨h.1, h.2.2⟩

/-- C9: on a table with distinct keys and distinct labels, the built getter
and setter are mutually inverse — the getter maps each key to its label and
the setter maps that label back to the key — and any input outside the table
throws `'Invalid enum value'`. -/
theorem C9_enum_mutual_inverse (table : List (ℤ × String))
    (hk : (table.map Prod.fst).Nodup) (hl : (table.map Prod.snd).Nodup) :
    (∀ p ∈ table,
      enumGetter table p.1 = .ok p.2 ∧ enumSetter table p.2 = .ok p.1) ∧
    (∀ v : ℤ, v ∉ table.map Prod.fst →
      enumGetter table v = .thrown "Invalid enum value") ∧
    (∀ s : String, s ∉ table.map Prod.snd →
      enumSetter table s = .thrown "Invalid enum value") := by
  refine ⟨?_, ?_, ?_⟩
  · intro p hp
    constructor
    · rw [enumGetter, find?_key_of_mem hk hp]
    · rw [enumSetter, find?_label_of_mem hl hp]
  · intro v hv
    rw [enumGetter, List.find?_eq_none.mpr]
    intro e he
    simp only [decide_eq_true_eq]
    intro hh
    exact hv (hh ▸ List.mem_map_of_mem Prod.fst he)
  · intro s hs
    rw [enumSetter, List.find?_eq_none.mpr]
    intro e he
    simp only [decide_eq_true_eq]
    intro hh
    exact hs (hh ▸ List.mem_map_of_mem Prod.snd he)

/-- C9 witness: the Eve Motion sensitivity table round-trips `4 ↔ 'Medium'`
and throws on the out-of-table raw value 5 and label `'Max'`. -/
theorem C9_witness :
    enumGetter eveMotionSensitivityTable 4 = .ok "Medium" ∧
    enumSetter eveMotionSensitivityTable "Medium" = .ok 4 ∧
    enumGetter eveMotionSensitivityTable 5 = .thrown "Invalid enum value" ∧
    enumSetter eveMotionSensitivityTable "Max" = .thrown "Invalid enum value" := by
  have h := C9_enum_mutual_inverse eveMotionSensitivityTable (by decide) (by decide)
  exact ⟨(h.1 (4, "Medium") (by decide)).1, (h.1 (4, "Medium") (by decide)).2,
    h.2.1 5 (by decide), h.2.2 "Max" (by decide)⟩

/-- C10: a bridge's accessory list is parsed with `aid = 1` excluded and each
remaining accessory wrapped in a sub-device registered under
`<bridge id>-<aid>`; a non-bridge parses only its first `aid = 1` accessory,
into the device itself, creating no sub-devices. -/
theorem C10_accessory_parsing (bridgeId : String) (accs : List Accessory) :
    (addDevicesModel bridgeId true accs =
      ((accs.filter (fun a => a.aid ≠ 1)).map
         (fun a => (ParseTarget.subDevice (subDeviceId bridgeId a), a)),
       (accs.filter (fun a => a.aid ≠ 1)).map (fun a => subDeviceId bridgeId a))) ∧
    (∀ t ∈ (addDevicesModel bridgeId true accs).1, t.2.aid ≠ 1) ∧
    (∀ a, accs.find? (fun x => x.aid = 1) = some a →
      addDevicesModel bridgeId false accs = ([(ParseTarget.selfDevice, a)], [])) ∧
    (accs.find? (fun x => x.aid = 1) = none →
      addDevicesModel bridgeId false accs = ([], [])) := by
  refine ⟨rfl, ?_, ?_, ?_⟩
  · intro t ht
    simp only [addDevicesModel, accessoriesToParse, parseAccessoriesModel, if_true,
      List.mem_map, List.mem_filter, decide_eq_true_eq] at ht
    obtain ⟨a, ⟨_, hne⟩, rfl⟩ := ht
    simpa using hne
  · intro a ha
    simp [addDevicesModel, accessoriesToParse, parseAccessoriesModel, ha]
  · intro ha
    simp [addDevicesModel, accessoriesToParse, parseAccessoriesModel, ha]

/-! ### Queue machine lemmas -/

theorem execQueue_append (evs : List QEvent) (e : QEvent) :
    execQueue (evs ++ [e]) = stepQueue (execQueue evs) e := by
  simp [execQueue, List.foldl_append]

theorem wfFrom_append (l1 l2 : List QEvent) (s : QueueState) :
    wfFrom s (l1 ++ l2) = (wfFrom s l1 && wfFrom (l1.foldl stepQueue s) l2) := by
  induction l1 generalizing s with
  | nil => simp [wfFrom]
  | cons e es ih => simp [wfFrom, ih, Bool.and_assoc]

theorem countEnq_append (l1 l2 : List QEvent) :
    countEnq (l1 ++ l2) = countEnq l1 + countEnq l2 := by
  simp [countEnq, List.filter_append]

theorem outcomesOf_append (l1 l2 : List QEvent) :
    outcomesOf (l1 ++ l2) = outcomesOf l1 ++ outcomesOf l2 := by
  simp [outcomesOf, List.filterMap_append]

theorem countEnq_enq : countEnq [QEvent.enq] = 1 := rfl

theorem countEnq_settle (o : Outcome) : countEnq [QEvent.settleOp o] = 0 := rfl

theorem outcomesOf_enq : outcomesOf [QEvent.enq] = [] := rfl

theorem outcomesOf_settle (o : Outcome) : outcomesOf [QEvent.settleOp o] = [o] := rfl

theorem canonicalRunAux_append (outs : List Outcome) (o : Outcome) : ∀ i,
    canonicalRunAux i (outs ++ [o]) =
      canonicalRunAux i outs ++ [(i + outs.length, none), (i + outs.length, some o)] := by
  induction outs with
  | nil => intro i; simp [canonicalRunAux]
  | cons x xs ih =>
    intro i
    have harith : i + 1 + xs.length = i + (xs.length + 1) := by omega
    simp only [List.cons_append, List.append_eq, canonicalRunAux, List.length_cons, ih (i + 1), harith]

theorem retsOf_append (outs : List Outcome) (o : Outcome) : ∀ i,
    retsOf i (outs ++ [o]) = retsOf i outs ++ [(i + outs.length, stripOutcome o)] := by
  induction outs with
  | nil => intro i; simp [retsOf]
  | cons x xs ih =>
    intro i
    have harith : i + 1 + xs.length = i + (xs.length + 1) := by omega
    simp only [List.cons_append, List.append_eq, retsOf, List.length_cons, ih (i + 1), harith]

theorem stepQueue_enq_run (s : QueueState)
    (hle : s.startedCount ≤ s.enqueuedCount)
    (hc : s.startedCount = s.settledCount) :
    stepQueue s .enq =
      { s with enqueuedCount := s.enqueuedCount + 1,
               queuedOperations := s.queuedOperations + 1,
               scanning := false,
               startedCount := s.startedCount + 1,
               runLog := s.runLog ++ [(s.startedCount, none)] } := by
  have hlt : s.startedCount < s.enqueuedCount + 1 := Nat.lt_succ_of_le hle
  have hlt2 : s.settledCount < s.enqueuedCount + 1 := by omega
  simp [stepQueue, maybeRun, hc, hlt, hlt2]

theorem stepQueue_enq_norun (s : QueueState) (hc : s.startedCount ≠ s.settledCount) :
    stepQueue s .enq =
      { s with enqueuedCount := s.enqueuedCount + 1,
               queuedOperations := s.queuedOperations + 1 } := by
  simp [stepQueue, maybeRun, hc]

theorem stepQueue_settle_run (s : QueueState) (o : Outcome)
    (hst : s.startedCount = s.settledCount + 1)
    (hrun : s.startedCount < s.enqueuedCount) :
    stepQueue s (.settleOp o) =
      { s with settledCount := s.settledCount + 1,
               queuedOperations := s.queuedOperations - 1,
               scanning := false,
               startedCount := s.startedCount + 1,
               retResults := s.retResults ++ [(s.settledCount, stripOutcome o)],
               runLog := s.runLog ++ [(s.settledCount, some o), (s.settledCount + 1, none)] } := by
  have hlt : s.settledCount < s.startedCount := by omega
  have hlt2 : s.settledCount + 1 < s.enqueuedCount := by omega
  simp [stepQueue, maybeRun, hlt, hst, hrun, hlt2]

theorem stepQueue_settle_norun (s : QueueState) (o : Outcome)
    (hst : s.startedCount = s.settledCount + 1)
    (hrun : ¬ s.startedCount < s.enqueuedCount) :
    stepQueue s (.settleOp o) =
      { s with settledCount := s.settledCount + 1,
               queuedOperations := s.queuedOperations - 1,
               scanning := if s.queuedOperations - 1 = 0 then true else s.scanning,
               retResults := s.retResults ++ [(s.settledCount, stripOutcome o)],
               runLog := s.runLog ++ [(s.settledCount, some o)] } := by
  have hlt : s.settledCount < s.startedCount := by omega
  have hle : s.enqueuedCount ≤ s.settledCount + 1 := by omega
  simp [stepQueue, maybeRun, hlt, hst, hrun, hle]

theorem stepQueue_inv (s : QueueState) (e : QEvent) (h : QInv s) :
    QInv (stepQueue s e) := by
  obtain ⟨h1, h2, h3, h4, h5⟩ := h
  cases e with
  | enq =>
    by_cases hc : s.startedCount = s.settledCount
    · rw [stepQueue_enq_run s h2 hc]
      refine ⟨?_, ?_, ?_, ?_, ?_⟩
      · show s.settledCount ≤ s.startedCount + 1
        omega
      · show s.startedCount + 1 ≤ s.enqueuedCount + 1
        omega
      · show s.startedCount + 1 ≤ s.settledCount + 1
        omega
      · show s.queuedOperations + 1 = s.enqueuedCount + 1 - s.settledCount
        omega
      · show (false = true ↔ s.queuedOperations + 1 = 0)
        simp
    · rw [stepQueue_enq_norun s hc]
      have hq : s.queuedOperations ≠ 0 := by omega
      refine ⟨h1, ?_, h3, ?_, ?_⟩
      · show s.startedCount ≤ s.enqueuedCount + 1
        omega
      · show s.queuedOperations + 1 = s.enqueuedCount + 1 - s.settledCount
        omega
      · show (s.scanning = true ↔ s.queuedOperations + 1 = 0)
        constructor
        · intro hsc
          exact absurd (h5.mp hsc) hq
        · intro hh
          exact absurd hh (by omega)
  | settleOp o =>
    by_cases hlt : s.settledCount < s.startedCount
    · have hst : s.startedCount = s.settledCount + 1 := by omega
      by_cases hrun : s.startedCount < s.enqueuedCount
      · rw [stepQueue_settle_run s o hst hrun]
        refine ⟨?_, ?_, ?_, ?_, ?_⟩
        · show s.settledCount + 1 ≤ s.startedCount + 1
          omega
        · show s.startedCount + 1 ≤ s.enqueuedCount
          omega
        · show s.startedCount + 1 ≤ s.settledCount + 1 + 1
          omega
        · show s.queuedOperations - 1 = s.enqueuedCount - (s.settledCount + 1)
          omega
        · show (false = true ↔ s.queuedOperations - 1 = 0)
          constructor
          · intro hsc
            cases hsc
          · intro hh
            exact absurd hh (by omega)
      · rw [stepQueue_settle_norun s o hst hrun]
        refine ⟨?_, ?_, ?_, ?_, ?_⟩
        · show s.settledCount + 1 ≤ s.startedCount
          omega
        · show s.startedCount ≤ s.enqueuedCount
          omega
        · show s.startedCount ≤ s.settledCount + 1 + 1
          omega
        · show s.queuedOperations - 1 = s.enqueuedCount - (s.settledCount + 1)
          omega
        · show ((if s.queuedOperations - 1 = 0 then true else s.scanning) = true ↔
            s.queuedOperations - 1 = 0)
          by_cases hq : s.queuedOperations - 1 = 0
          · simp [hq]
          · rw [if_neg hq]
            constructor
            · intro hsc
              exact absurd (h5.mp hsc) (by omega)
            · intro hh
              exact absurd hh hq
    · have heq : stepQueue s (.settleOp o) = s := by
        simp [stepQueue, hlt]
      rw [heq]
      exact ⟨h1, h2, h3, h4, h5⟩

theorem execQueue_inv (evs : List QEvent) : QInv (execQueue evs) := by
  induction evs using List.reverseRecOn with
  | nil => exact ⟨Nat.le_refl _, Nat.le_refl _, Nat.le_succ _, rfl, by simp [execQueue, initQueue]⟩
  | append_singleton evs e ih =>
    rw [execQueue_append]
    exact stepQueue_inv _ e ih

theorem wfQ_append (l1 l2 : List QEvent) :
    wfQ (l1 ++ l2) = (wfQ l1 && wfFrom (execQueue l1) l2) :=
  wfFrom_append l1 l2 initQueue

theorem execQueue_characterization (evs : List QEvent) (h : wfQ evs = true) :
    (execQueue evs).enqueuedCount = countEnq evs ∧
    (execQueue evs).settledCount = (outcomesOf evs).length ∧
    (outcomesOf evs).length ≤ countEnq evs ∧
    (execQueue evs).startedCount = min (countEnq evs) ((outcomesOf evs).length + 1) ∧
    (execQueue evs).runLog = canonicalRun (outcomesOf evs) (countEnq evs) ∧
    (execQueue evs).retResults = retsOf 0 (outcomesOf evs) := by
  induction evs using List.reverseRecOn with
  | nil =>
    exact ⟨rfl, rfl, Nat.le_refl _, rfl, rfl, rfl⟩
  | append_singleton evs e ih =>
    rw [wfQ_append, Bool.and_eq_true] at h
    obtain ⟨hwf, hen⟩ := h
    have hen2 : enabledQ (execQueue evs) e = true := by
      simp only [wfFrom, Bool.and_eq_true] at hen
      exact hen.1
    obtain ⟨i1, i2, i3, i4, i5, i6⟩ := ih hwf
    rw [execQueue_append]
    cases e with
    | enq =>
      rw [countEnq_append, outcomesOf_append, countEnq_enq, outcomesOf_enq,
        List.append_nil]
      by_cases hEn : countEnq evs = (outcomesOf evs).length
      · have hc : (execQueue evs).startedCount = (execQueue evs).settledCount := by
          rw [i4, i2, hEn]
          exact min_eq_left (Nat.le_succ _)
        rw [stepQueue_enq_run _ (by rw [i4, i1]; exact min_le_left _ _) hc]
        refine ⟨?_, ?_, by omega, ?_, ?_, ?_⟩
        · show (execQueue evs).enqueuedCount + 1 = countEnq evs + 1
          rw [i1]
        · show (execQueue evs).settledCount = (outcomesOf evs).length
          exact i2
        · show (execQueue evs).startedCount + 1 =
            min (countEnq evs + 1) ((outcomesOf evs).length + 1)
          rw [i4, hEn, min_eq_left (Nat.le_succ _), min_self]
        · show (execQueue evs).runLog ++ [((execQueue evs).startedCount, none)] =
            canonicalRun (outcomesOf evs) (countEnq evs + 1)
          rw [i5, i4, hEn, min_eq_left (Nat.le_succ _), canonicalRun, canonicalRun]
          rw [if_neg (Nat.lt_irrefl _), if_pos (Nat.lt_succ_self _)]
          simp
        · show (execQueue evs).retResults = retsOf 0 (outcomesOf evs)
          exact i6
      · have hlt : (outcomesOf evs).length < countEnq evs := by omega
        have hc : (execQueue evs).startedCount ≠ (execQueue evs).settledCount := by
          rw [i4, i2, min_eq_right (by omega)]
          omega
        rw [stepQueue_enq_norun _ hc]
        refine ⟨?_, i2, by omega, ?_, ?_, i6⟩
        · show (execQueue evs).enqueuedCount + 1 = countEnq evs + 1
          rw [i1]
        · show (execQueue evs).startedCount =
            min (countEnq evs + 1) ((outcomesOf evs).length + 1)
          rw [i4, min_eq_right (by omega), min_eq_right (by omega)]
        · show (execQueue evs).runLog = canonicalRun (outcomesOf evs) (countEnq evs + 1)
          rw [i5, canonicalRun, canonicalRun, if_pos hlt, if_pos (by omega)]
    | settleOp o =>
      have hlt : (execQueue evs).settledCount < (execQueue evs).startedCount := by
        simpa [enabledQ] using hen2
      have hlt2 := hlt
      rw [i2, i4] at hlt2
      have hEgt : (outcomesOf evs).length < countEnq evs :=
        lt_of_lt_of_le hlt2 (min_le_left _ _)
      have hst : (execQueue evs).startedCount = (execQueue evs).settledCount + 1 := by
        rw [i4, i2, min_eq_right (by omega)]
      rw [countEnq_append, outcomesOf_append, countEnq_settle, outcomesOf_settle,
        Nat.add_zero]
      have hlen : (outcomesOf evs ++ [o]).length = (outcomesOf evs).length + 1 := by
        simp
      by_cases hrun : (outcomesOf evs).length + 1 < countEnq evs
      · rw [stepQueue_settle_run _ o hst
          (by rw [i4, i1, min_eq_right (by omega)]; omega)]
        refine ⟨?_, ?_, by rw [hlen]; omega, ?_, ?_, ?_⟩
        · show (execQueue evs).enqueuedCount = countEnq evs
          exact i1
        · show (execQueue evs).settledCount + 1 = (outcomesOf evs ++ [o]).length
          rw [hlen, i2]
        · show (execQueue evs).startedCount + 1 =
            min (countEnq evs) ((outcomesOf evs ++ [o]).length + 1)
          rw [hlen, i4, min_eq_right (by omega), min_eq_right (by omega)]
        · show (execQueue evs).runLog ++
            [((execQueue evs).settledCount, some o), ((execQueue evs).settledCount + 1, none)] =
            canonicalRun (outcomesOf evs ++ [o]) (countEnq evs)
          rw [i5, i2, canonicalRun, canonicalRun, canonicalRunAux_append]
          rw [if_pos hEgt, if_pos (by rw [hlen]; exact hrun)]
          simp [hlen]
        · show (execQueue evs).retResults ++
            [((execQueue evs).settledCount, stripOutcome o)] =
            retsOf 0 (outcomesOf evs ++ [o])
          rw [i6, i2, retsOf_append]
          simp
      · rw [stepQueue_settle_norun _ o hst
          (by rw [i4, i1, min_eq_right (by omega)]; omega)]
        refine ⟨?_, ?_, by rw [hlen]; omega, ?_, ?_, ?_⟩
        · show (execQueue evs).enqueuedCount = countEnq evs
          exact i1
        · show (execQueue evs).settledCount + 1 = (outcomesOf evs ++ [o]).length
          rw [hlen, i2]
        · show (execQueue evs).startedCount =
            min (countEnq evs) ((outcomesOf evs ++ [o]).length + 1)
          rw [hlen, i4, min_eq_right (by omega), min_eq_left (by omega)]
          omega
        · show (execQueue evs).runLog ++ [((execQueue evs).settledCount, some o)] =
            canonicalRun (outcomesOf evs ++ [o]) (countEnq evs)
          rw [i5, i2, canonicalRun, canonicalRun, canonicalRunAux_append]
          rw [if_pos hEgt, if_neg (by rw [hlen]; omega)]
          simp
        · show (execQueue evs).retResults ++
            [((execQueue evs).settledCount, stripOutcome o)] =
            retsOf 0 (outcomesOf evs ++ [o])
          rw [i6, i2, retsOf_append]
          simp

/-- C2: over every physically possible schedule, the queue's run log is the
strictly FIFO alternation `start 0, settle 0, start 1, settle 1, …`
(`canonicalRun`): operation `i+1` begins only after operation `i`'s promise
has settled, whatever the outcomes were, and at most one operation past the
settled ones has started (`startedCount = min(submitted, settled + 1)`). -/
theorem C2_queue_fifo (evs : List QEvent) (h : wfQ evs = true) :
    (execQueue evs).runLog = canonicalRun (outcomesOf evs) (countEnq evs) ∧
    (execQueue evs).settledCount = (outcomesOf evs).length ∧
    (execQueue evs).startedCount = min (countEnq evs) ((outcomesOf evs).length + 1) := by
  obtain ⟨_, h2, _, h4, h5, _⟩ := execQueue_characterization evs h
  exact ⟨h5, h2, h4⟩

/-- C2 witness: three operations submitted up front, the first rejecting,
still start and settle strictly in submission order. -/
theorem C2_witness :
    wfQ [QEvent.enq, QEvent.enq, QEvent.enq,
         QEvent.settleOp (.rejected (.str "boom")),
         QEvent.settleOp (.fulfilled (.num 1)),
         QEvent.settleOp (.fulfilled (.num 2))] = true ∧
    (execQueue [QEvent.enq, QEvent.enq, QEvent.enq,
         QEvent.settleOp (.rejected (.str "boom")),
         QEvent.settleOp (.fulfilled (.num 1)),
         QEvent.settleOp (.fulfilled (.num 2))]).runLog =
      [(0, none), (0, some (.rejected (.str "boom"))),
       (1, none), (1, some (.fulfilled (.num 1))),
       (2, none), (2, some (.fulfilled (.num 2)))] := by
  refine ⟨by decide, ?_⟩
  rw [(C2_queue_fifo _ (by decide)).1]
  decide

/-- C3 counterexample: an operation fulfilling with 42 makes
`queueBLEOperation`'s returned promise fulfill with `undefined`, not with 42
(`resolve.call(arguments)` passes no argument — the second conjunct decides
that the returned settlement differs from fulfillment with 42). -/
theorem C3_counterexample :
    (execQueue [QEvent.enq, QEvent.settleOp (.fulfilled (.num 42))]).retResults
      = [(0, Outcome.fulfilled JsVal.undefinedVal)] ∧
    decide ((execQueue [QEvent.enq, QEvent.settleOp (.fulfilled (.num 42))]).retResults
      = [(0, Outcome.fulfilled (JsVal.num 42))]) = false := by
  constructor <;> decide

/-- C3 amended: the promise returned by `queueBLEOperation` settles with the
same disposition as the operation's promise — it fulfills when the operation
fulfills and rejects when it rejects — but with value `undefined` in both
cases; the operation's result and error are not forwarded. -/
theorem C3_amended_ret_disposition (evs : List QEvent) (h : wfQ evs = true) :
    (execQueue evs).retResults = retsOf 0 (outcomesOf evs) := by
  exact (execQueue_characterization evs h).2.2.2.2.2

/-- C3 amended witness: a fulfilled op yields a fulfilled-`undefined` return,
a rejected op a rejected-`undefined` return. -/
theorem C3_amended_witness :
    (execQueue [QEvent.enq, QEvent.settleOp (.fulfilled (.num 42)),
                QEvent.enq, QEvent.settleOp (.rejected (.str "err"))]).retResults
      = [(0, Outcome.fulfilled JsVal.undefinedVal), (1, Outcome.rejected JsVal.undefinedVal)] := by
  rw [C3_amended_ret_disposition _ (by decide)]
  decide

/-- C7: in every reachable state of the queue machine, BLE discovery
scanning is on exactly when `queuedOperations = 0` — scanning is stopped
(before the operation runs) whenever operations are queued or executing, and
it is restarted exactly at the settlement that drains the queue — and in
particular scanning is off whenever an operation is executing. -/
theorem C7_scanning_iff_idle (evs : List QEvent) :
    ((execQueue evs).scanning = true ↔ (execQueue evs).queuedOperations = 0) ∧
    ((execQueue evs).settledCount < (execQueue evs).startedCount →
      (execQueue evs).scanning = false) := by
  obtain ⟨h1, h2, h3, h4, h5⟩ := execQueue_inv evs
  refine ⟨h5, ?_⟩
  intro hact
  have hq : (execQueue evs).queuedOperations ≠ 0 := by omega
  cases hsc : (execQueue evs).scanning with
  | false => rfl
  | true => exact absurd (h5.mp hsc) hq

/-- C7 witness: with one operation executing, scanning is off; after it
settles and the queue drains, scanning is on. -/
theorem C7_witness :
    (execQueue [QEvent.enq]).scanning = false ∧
    (execQueue [QEvent.enq, QEvent.settleOp (.fulfilled .undefinedVal)]).scanning = true := by
  refine ⟨(C7_scanning_iff_idle [QEvent.enq]).2 (by decide), ?_⟩
  exact (C7_scanning_iff_idle
    [QEvent.enq, QEvent.settleOp (.fulfilled .undefinedVal)]).1.mpr (by decide)

/-- C10 witness: a bridge with accessories 1, 2, 5 creates sub-devices
`dev-2` and `dev-5`; a non-bridge with the same list parses only accessory 1
into itself. -/
theorem C10_witness :
    addDevicesModel "dev" true [⟨1⟩, ⟨2⟩, ⟨5⟩] =
      ([(ParseTarget.subDevice "dev-2", ⟨2⟩), (ParseTarget.subDevice "dev-5", ⟨5⟩)],
       ["dev-2", "dev-5"]) ∧
    addDevicesModel "dev" false [⟨1⟩, ⟨2⟩, ⟨5⟩] = ([(ParseTarget.selfDevice, ⟨1⟩)], []) := by
  refine ⟨(C10_accessory_parsing "dev" [⟨1⟩, ⟨2⟩, ⟨5⟩]).1.trans (by decide), ?_⟩
  exact (C10_accessory_parsing "dev" [⟨1⟩, ⟨2⟩, ⟨5⟩]).2.2.1 ⟨1⟩ (by decide)

end HomekitAdapter
